import Mathlib

/-!
Shallow embedding of the Trails application core (`src/index.js`), covering:

* the `onceAny` and `after` barrier combinators of `TrailsApp`
  (one-shot event listeners, promise race / promise all semantics,
  handler wrapping, and listener cleanup);
* the `TrailsApp` constructor's validation order
  (`PackageNotDefinedError`, `ApiNotDefinedError`, `LoggerNotDefinedError`),
  the `NODE_ENV` process-environment default, and the frozen environment
  snapshot;
* the `start()` entry point's `after('trails:ready')` barrier.

JavaScript values carried by events are modelled by the inductive `JSVal`;
`undefined` is `JSVal.undef`.  The process environment is a flat list of
string key/value pairs (`PEnv`), matching the flat string map that
`JSON.parse(JSON.stringify(process.env))` copies.  Event emissions are modelled
as a trace: the ordered list of `(eventName, argumentList)` pairs emitted on
the application's event bus after a combinator call registered its listeners.
-/

namespace Trails

/-- A JavaScript value, as far as the event bus and constructor observe it:
`undefined`, booleans, numbers, strings and arrays. -/
inductive JSVal where
  | undef : JSVal
  | boolV : Bool → JSVal
  | num : Int → JSVal
  | str : String → JSVal
  | list : List JSVal → JSVal

/-- JavaScript truthiness, as used by `if (!app.pkg)` and `if (!app.api)` in
the constructor: `undefined`, `false`, `0` and the empty string are falsy. -/
def truthy : JSVal → Bool
  | .undef => false
  | .boolV b => b
  | .num n => n != 0
  | .str s => s != ""
  | .list _ => true

/-- One event emission on the bus: the event name and the emitted arguments
(`this.emit(name, ...args)`). -/
abbrev Emission := String × List JSVal

/-- The ordered list of emissions that happen after a combinator call. -/
abbrev Trace := List Emission

/-- The wrapper `const handlerWrapper = (...args) => { handler(args); return args }`
(and the `after` variant `(args) => { handler(args); return args }`):
it invokes the handler for side effect and passes the original
arguments on; the handler's return value (first component) is discarded by
the promise chain, which continues with the second component. -/
def handlerWrapper (handler : List JSVal → JSVal) (args : List JSVal) :
    JSVal × List JSVal :=
  (handler args, args)

/-- The no-op default handler, `const NOOP = function () { }` (returns
`undefined`). -/
def noopHandler : List JSVal → JSVal := fun _ => JSVal.undef

/-! ## `onceAny`

```js
onceAny (events, handler = NOOP) {
  if (!Array.isArray(events)) events = [events]
  let resolveCallback
  const handlerWrapper = (...args) => { handler(args); return args }
  return Promise.race(events.map(eventName => {
    return new Promise(resolve => {
      resolveCallback = resolve
      this.once(eventName, resolveCallback)
    })
  }))
  .then(handlerWrapper)
  .then(args => {
    events.forEach(eventName => this.removeListener(eventName, resolveCallback))
    return args
  })
}
```

Each element of `events` gets its own one-shot listener (its promise's
`resolve` function); listener `i` is identified below by the number `i`.
A promise `resolve` accepts a single value, so firing event `i` with
arguments `args` resolves its promise with the first argument only
(`undefined` when there are none).  `Promise.race` adopts the value of the
first inner promise to settle.  The shared `resolveCallback` variable holds,
after the `map` completes, the `resolve` of the **last** list element, so the
cleanup loop can only ever remove listener `events.length - 1`. -/

/-- State of one `onceAny` call: the one-shot listeners still attached
(event name, listener index), the settled value of the returned promise
(`none` while pending), and the payloads the optional handler has been
invoked with. -/
structure OnceAnyState where
  listeners : List (String × Nat)
  settled : Option (List JSVal)
  handlerCalls : List (List JSVal)

/-- The listeners registered by `events.map(...)`: one per list element, in
order, numbered from `i`. -/
def initListeners : List String → Nat → List (String × Nat)
  | [], _ => []
  | nm :: ns, i => (nm, i) :: initListeners ns (i + 1)

/-- State of an `onceAny` call right after registration, before any
emission. -/
def onceAnyInit (names : List String) : OnceAnyState :=
  { listeners := initListeners names 0, settled := none, handlerCalls := [] }

/-- Effect of one emission `ev` on an `onceAny` call's state.  Every attached
one-shot listener for the emitted event fires and detaches.  If the promise
was still pending and some listener fired, the race settles with the
emission's first argument, the handler wrapper runs (handler invoked with the
singleton argument list, its result discarded), and the cleanup loop removes
`resolveCallback` — the resolve function of listener `names.length - 1` —
from every event name in the list. -/
def onceAnyStep (handler : List JSVal → JSVal) (names : List String)
    (s : OnceAnyState) (ev : Emission) : OnceAnyState :=
  let fired := s.listeners.filter (fun l => l.1 == ev.1)
  let remaining := s.listeners.filter (fun l => l.1 != ev.1)
  match s.settled with
  | some _ => { s with listeners := remaining }
  | none =>
    if fired.isEmpty then
      { s with listeners := remaining }
    else
      let raceValue := ev.2.headD JSVal.undef
      let w := handlerWrapper handler [raceValue]
      { listeners := remaining.filter (fun l => l.2 != names.length - 1),
        settled := some w.2,
        handlerCalls := s.handlerCalls ++ [[raceValue]] }

/-- The observable state of `onceAny(names, handler)` after the emissions in
`trace`. -/
def runOnceAny (handler : List JSVal → JSVal) (names : List String)
    (trace : Trace) : OnceAnyState :=
  trace.foldl (onceAnyStep handler names) (onceAnyInit names)

/-- The first emission in the trace whose event name belongs to the list —
the winner of the `Promise.race`. -/
def firstMatch (names : List String) (trace : Trace) : Option Emission :=
  trace.find? (fun ev => decide (ev.1 ∈ names))

/-! ## `after`

```js
after (events, handler = NOOP) {
  if (!Array.isArray(events)) events = [ events ]
  const handlerWrapper = (args) => { handler(args); return args }
  return Promise.all(events.map(eventName => {
    return new Promise(resolve => {
      if (eventName instanceof Array) { this.onceAny(eventName, resolve) }
      else { this.once(eventName, resolve) }
    })
  }))
  .then(handlerWrapper)
}
```

A top-level element is either a plain event name (`this.once` captures the
first argument of that event's first emission) or a nested list — an
"any of" group awaited through `onceAny`, whose handler receives the
singleton argument list `[firstArg]` and therefore captures an array value.
`Promise.all` settles, in input order, once every element's promise has
settled. -/

/-- One top-level element of an `after` list: a plain event name or a nested
"any of" group. -/
inductive AfterElem where
  | plain : String → AfterElem
  | group : List String → AfterElem

/-- Whether an emission of event `e` fires the given element's listener. -/
def elemMatches : AfterElem → String → Bool
  | .plain nm, e => nm == e
  | .group g, e => decide (e ∈ g)

/-- The value an element's promise captures from the emission that settles
it: a plain `once` listener resolves with the first argument; a group's
`onceAny` handler receives the singleton list `[firstArg]`, i.e. an array. -/
def elemValue : AfterElem → Emission → JSVal
  | .plain _, ev => ev.2.headD JSVal.undef
  | .group _, ev => .list [ev.2.headD JSVal.undef]

/-- State of one `after` call: the value captured so far by each top-level
element (input order), the settled value of the returned promise, and the
payloads the optional handler has been invoked with. -/
structure AfterState where
  captured : List (Option JSVal)
  settled : Option (List JSVal)
  handlerCalls : List (List JSVal)

/-- Effect of one emission on the per-element capture slots: a still-pending
element whose listener fires captures the emission's value; settled elements
are unchanged (their one-shot listener is gone). -/
def stepCaptured (elems : List AfterElem) (cap : List (Option JSVal))
    (ev : Emission) : List (Option JSVal) :=
  List.zipWith
    (fun e c =>
      match c with
      | some v => some v
      | none => if elemMatches e ev.1 then some (elemValue e ev) else none)
    elems cap

/-- Settlement of `Promise.all`: once every element has captured a value and
the promise is still pending, the handler wrapper runs (handler invoked with
the ordered value list, its result discarded) and the promise settles with
that same ordered list. -/
def trySettle (handler : List JSVal → JSVal) (s : AfterState) : AfterState :=
  match s.settled with
  | some _ => s
  | none =>
    if s.captured.all Option.isSome then
      let v := s.captured.map (fun o => o.getD JSVal.undef)
      let w := handlerWrapper handler v
      { s with settled := some w.2, handlerCalls := s.handlerCalls ++ [v] }
    else s

/-- State of an `after` call right after registration: no element has
captured anything; with an empty input list `Promise.all([])` settles
immediately with the empty list. -/
def afterInit (handler : List JSVal → JSVal) (elems : List AfterElem) :
    AfterState :=
  trySettle handler
    { captured := elems.map (fun _ => none), settled := none, handlerCalls := [] }

/-- Effect of one emission on an `after` call's state. -/
def afterStep (handler : List JSVal → JSVal) (elems : List AfterElem)
    (s : AfterState) (ev : Emission) : AfterState :=
  trySettle handler { s with captured := stepCaptured elems s.captured ev }

/-- The observable state of `after(elems, handler)` after the emissions in
`trace`. -/
def runAfter (handler : List JSVal → JSVal) (elems : List AfterElem)
    (trace : Trace) : AfterState :=
  trace.foldl (afterStep handler elems) (afterInit handler elems)

/-- The first emission in the trace that fires the given element. -/
def elemFind (e : AfterElem) (trace : Trace) : Option Emission :=
  trace.find? (fun ev => elemMatches e ev.1)

/-- Specification-level view of the capture slots after a trace: each element
holds the value of the first emission that fires it, if any. -/
def capturedSpec (elems : List AfterElem) (trace : Trace) :
    List (Option JSVal) :=
  elems.map (fun e => (elemFind e trace).map (elemValue e))

/-- Specification-level view of the settled value after a trace: the ordered
capture list once every element has fired, pending otherwise. -/
def settledSpec (elems : List AfterElem) (trace : Trace) :
    Option (List JSVal) :=
  if (capturedSpec elems trace).all Option.isSome then
    some ((capturedSpec elems trace).map (fun o => o.getD JSVal.undef))
  else none

/-- Specification-level view of the whole `after` state after a trace. -/
def afterSpecState (elems : List AfterElem) (trace : Trace) : AfterState :=
  { captured := capturedSpec elems trace
  , settled := settledSpec elems trace
  , handlerCalls := (settledSpec elems trace).toList }

/-- Whether some emission in the trace fires the given element. -/
def firedIn (trace : Trace) (e : AfterElem) : Bool :=
  trace.any (fun ev => elemMatches e ev.1)

/-- The value a plain `after` element for event `nm` captures from a trace:
the first argument of `nm`'s first emission (`undefined` when `nm` never
fires, a case ruled out where this is used). -/
def firstPlainValue (trace : Trace) (nm : String) : JSVal :=
  ((trace.find? (fun ev => nm == ev.1)).map
    (fun ev => ev.2.headD JSVal.undef)).getD JSVal.undef

/-! ## Constructor, process environment and `start()`

```js
constructor (app) {
  super()
  if (!app.pkg) { throw new lib.Errors.PackageNotDefinedError() }
  if (!app.api && !(app && app.api)) { throw new lib.Errors.ApiNotDefinedError() }
  if (!process.env.NODE_ENV) { process.env.NODE_ENV = 'development' }
  const processEnv = Object.freeze(JSON.parse(JSON.stringify(process.env)))
  lib.Trails.validateConfig(app.config)
  Object.defineProperties(this, { env: { value: processEnv }, ... })
  ...
  this.config.main.packs.forEach(Pack => new Pack(this))
  ...
}
```

The second guard `!app.api && !(app && app.api)` is equivalent to `!app.api`
(the extra conjunct is redundant), so a falsy `api` always raises
`ApiNotDefinedError`.  `process.env` is a flat map of string keys to string
values, so the `JSON` round trip is a value copy of it.  The calls into
`lib` that only shape collaborator state irrelevant to the claims
(`getExternalModules`, `createDefaultPaths`, `bindMethods`,
`setMaxListeners`) are elided; pack instantiation is recorded as the ordered
list of pack constructors invoked. -/

/-- The construction-time configuration errors raised by the constructor and
by `lib.Trails.validateConfig`. -/
inductive TrailsError where
  | PackageNotDefinedError : TrailsError
  | ApiNotDefinedError : TrailsError
  | LoggerNotDefinedError : TrailsError

/-- A strict-mode JavaScript runtime error: writing a property of a frozen
object throws a `TypeError`. -/
inductive JsError where
  | typeError : JsError

/-- The process environment: a flat map of string keys to string values,
ordered as JavaScript object keys are. -/
structure PEnv where
  vars : List (String × String)

/-- Reading `process.env[k]`. -/
def PEnv.get (e : PEnv) (k : String) : Option String :=
  (e.vars.find? (fun p => p.1 == k)).map (fun p => p.2)

/-- Writing `process.env[k] = v`: an existing key keeps its position, a new
key is appended. -/
def PEnv.set (e : PEnv) (k v : String) : PEnv :=
  if e.vars.any (fun p => p.1 == k) then
    ⟨e.vars.map (fun p => if p.1 == k then (k, v) else p)⟩
  else ⟨e.vars ++ [(k, v)]⟩

/-- The statement `if (!process.env.NODE_ENV) { process.env.NODE_ENV = 'development' }`:
the guard tests truthiness, not presence, so both an absent `NODE_ENV` and
one set to the empty string (the falsy string value) are overwritten with
the development default; any non-empty value is left alone. -/
def defaultNodeEnv (penv : PEnv) : PEnv :=
  match penv.get "NODE_ENV" with
  | none => penv.set "NODE_ENV" "development"
  | some v => if v == "" then penv.set "NODE_ENV" "development" else penv

/-- The slice of the raw configuration tree the claims observe: the logging
collaborator under `config.log.logger` and the ordered pack-constructor list
under `config.main.packs` (constructors identified by number). -/
structure Config where
  log : Option JSVal
  packs : List Nat

/-- Modelled from the spec: `lib.Trails.validateConfig` (the `lib/` module is
not part of the sources) "fails with a `LoggerNotDefinedError` when no
logging collaborator is present in the raw tree". -/
def validateConfig (c : Config) : Except TrailsError Unit :=
  match c.log with
  | none => .error .LoggerNotDefinedError
  | some _ => .ok ()

/-- The constructor argument: `app.pkg`, `app.api` (both `JSVal.undef` when
the field is absent, since reading a missing property yields `undefined`)
and `app.config`. -/
structure AppInput where
  pkg : JSVal
  api : JSVal
  config : Config

/-- The claim-relevant attributes of a constructed `TrailsApp`: the frozen
environment snapshot (`env`, with its frozen flag), the lifecycle flags, and
the ordered pack list. -/
structure TrailsCtx where
  env : List (String × String)
  envFrozen : Bool
  started : Bool
  stopped : Bool
  bound : Bool
  loadedPacks : List Nat

/-- The `TrailsApp` constructor: validation guards in source order, the
`NODE_ENV` default, the frozen snapshot of the (possibly updated) process
environment, config validation, then pack instantiation.  The result is the
constructed context (or the thrown error), the process environment after the
call, and the ordered list of pack constructors that were invoked. -/
def construct (inp : AppInput) (penv : PEnv) :
    Except TrailsError TrailsCtx × PEnv × List Nat :=
  if truthy inp.pkg = false then
    (.error .PackageNotDefinedError, penv, [])
  else if truthy inp.api = false then
    (.error .ApiNotDefinedError, penv, [])
  else
    let penv1 := defaultNodeEnv penv
    match validateConfig inp.config with
    | .error e => (.error e, penv1, [])
    | .ok _ =>
      (.ok { env := penv1.vars
           , envFrozen := true
           , started := false
           , stopped := false
           , bound := false
           , loadedPacks := inp.config.packs },
       penv1, inp.config.packs)

/-- A strict-mode write `app.env[k] = v` against the snapshot: the snapshot
was frozen at construction, so the write throws a `TypeError`. -/
def snapshotWrite (c : TrailsCtx) (k v : String) : Except JsError TrailsCtx :=
  if c.envFrozen then .error .typeError
  else .ok { c with env := ((PEnv.mk c.env).set k v).vars }

/-- The world after construction: the live process environment next to the
constructed application object. -/
structure World where
  penv : PEnv
  app : TrailsCtx

/-- `process.env[k] = v` after construction: mutates the live process
environment only. -/
def setProcessVar (w : World) (k v : String) : World :=
  { w with penv := w.penv.set k v }

/-- A sequence of later external writes to the live process environment. -/
def applyProcessMuts (w : World) (ms : List (String × String)) : World :=
  ms.foldl (fun w p => setProcessVar w p.1 p.2) w

/-- The signal returned by `start()`, as far as the `trails:ready` barrier is
concerned:

```js
return this.after('trails:ready')
  .then(() => { this.started = true; return this })
```

Given the emissions after the call, the signal is pending while the barrier
is; once the barrier settles the continuation sets `started` and the signal
resolves with the application itself.  (The listener wiring and the
`i18next.init` callback that leads packs to emit `trails:ready` are
abstracted into the trace.) -/
def startRun (app : TrailsCtx) (trace : Trace) : TrailsCtx × Option TrailsCtx :=
  match (runAfter noopHandler [AfterElem.plain "trails:ready"] trace).settled with
  | some _ => ({ app with started := true }, some { app with started := true })
  | none => (app, none)

/-! ## Helper lemmas -/

theorem find?_isSome_any {α : Type} (p : α → Bool) (l : List α) :
    (l.find? p).isSome = l.any p := by
  induction l with
  | nil => rfl
  | cons a t ih => cases h : p a <;> simp [List.find?, h, ih]

theorem initListeners_fst_mem (ns : List String) :
    ∀ (i : Nat), ∀ l ∈ initListeners ns i, l.1 ∈ ns := by
  induction ns with
  | nil => intro i l hl; cases hl
  | cons nm t ih =>
    intro i l hl
    rcases List.mem_cons.mp hl with rfl | hl
    · simp
    · exact List.mem_cons_of_mem _ (ih (i + 1) l hl)

theorem mem_initListeners (ns : List String) :
    ∀ (i : Nat) (nm : String), nm ∈ ns → ∃ j, (nm, j) ∈ initListeners ns i := by
  induction ns with
  | nil => intro i nm h; cases h
  | cons a t ih =>
    intro i nm h
    rcases List.mem_cons.mp h with rfl | h
    · exact ⟨i, List.mem_cons_self _ _⟩
    · obtain ⟨j, hj⟩ := ih (i + 1) nm h
      exact ⟨j, List.mem_cons_of_mem _ hj⟩

theorem onceAnyStep_settled (h : List JSVal → JSVal) (names : List String)
    (s : OnceAnyState) (ev : Emission) (v : List JSVal)
    (hs : s.settled = some v) :
    (onceAnyStep h names s ev).settled = some v := by
  unfold onceAnyStep
  rw [hs]

theorem foldl_onceAny_settled (h : List JSVal → JSVal) (names : List String) :
    ∀ (tr : Trace) (s : OnceAnyState) (v : List JSVal), s.settled = some v →
      (tr.foldl (onceAnyStep h names) s).settled = some v := by
  intro tr
  induction tr with
  | nil => intro s v hs; exact hs
  | cons ev t ih =>
    intro s v hs
    exact ih _ v (onceAnyStep_settled h names s ev v hs)

theorem onceAnyStep_init_not_mem (h : List JSVal → JSVal) (names : List String)
    (ev : Emission) (hm : ev.1 ∉ names) :
    onceAnyStep h names (onceAnyInit names) ev = onceAnyInit names := by
  have hfilter : (initListeners names 0).filter (fun l => l.1 == ev.1) = [] := by
    rw [List.filter_eq_nil_iff]
    intro l hl hbeq
    have h1 : l.1 = ev.1 := by simpa using hbeq
    exact hm (h1 ▸ initListeners_fst_mem names 0 l hl)
  have hkeep : (initListeners names 0).filter (fun l => l.1 != ev.1)
      = initListeners names 0 := by
    rw [List.filter_eq_self]
    intro l hl
    have : l.1 ≠ ev.1 := fun he =>
      hm (he ▸ initListeners_fst_mem names 0 l hl)
    simpa using this
  simp [onceAnyStep, onceAnyInit, hfilter, hkeep]

theorem onceAnyStep_init_mem (h : List JSVal → JSVal) (names : List String)
    (ev : Emission) (hm : ev.1 ∈ names) :
    (onceAnyStep h names (onceAnyInit names) ev).settled
      = some [ev.2.headD JSVal.undef] := by
  obtain ⟨j, hj⟩ := mem_initListeners names 0 ev.1 hm
  have hne : (initListeners names 0).filter (fun l => l.1 == ev.1) ≠ [] :=
    List.ne_nil_of_mem (List.mem_filter.mpr ⟨hj, by simp⟩)
  have hempty : ((initListeners names 0).filter (fun l => l.1 == ev.1)).isEmpty
      = false := by
    rw [List.isEmpty_eq_false]; exact hne
  simp [onceAnyStep, onceAnyInit, hempty, handlerWrapper]

theorem runOnceAny_settled (h : List JSVal → JSVal) (names : List String)
    (trace : Trace) :
    (runOnceAny h names trace).settled
      = (firstMatch names trace).map (fun ev => [ev.2.headD JSVal.undef]) := by
  induction trace with
  | nil => rfl
  | cons ev tr ih =>
    by_cases hm : ev.1 ∈ names
    · have hs := onceAnyStep_init_mem h names ev hm
      have : (runOnceAny h names (ev :: tr)).settled
          = some [ev.2.headD JSVal.undef] := by
        unfold runOnceAny
        rw [List.foldl_cons]
        exact foldl_onceAny_settled h names tr _ _ hs
      rw [this, firstMatch, List.find?_cons_of_pos _ (by simpa using hm)]
      rfl
    · have hstep := onceAnyStep_init_not_mem h names ev hm
      have : runOnceAny h names (ev :: tr) = runOnceAny h names tr := by
        unfold runOnceAny
        rw [List.foldl_cons, hstep]
      rw [this, ih, firstMatch, firstMatch,
        List.find?_cons_of_neg _ (by simpa using hm)]

theorem onceAnyStep_calls (h : List JSVal → JSVal) (names : List String)
    (s : OnceAnyState) (ev : Emission)
    (hinv : s.handlerCalls = s.settled.toList) :
    (onceAnyStep h names s ev).handlerCalls
      = (onceAnyStep h names s ev).settled.toList := by
  unfold onceAnyStep
  cases hs : s.settled with
  | some v => rw [hs] at hinv; simpa using hinv
  | none =>
    rw [hs] at hinv
    by_cases he : ((s.listeners.filter (fun l => l.1 == ev.1)).isEmpty) = true
    · simp [he, hinv]
    · simp only [Bool.not_eq_true] at he
      simp [he, hinv, handlerWrapper]

theorem runOnceAny_calls (h : List JSVal → JSVal) (names : List String)
    (trace : Trace) :
    (runOnceAny h names trace).handlerCalls
      = (runOnceAny h names trace).settled.toList := by
  suffices hgen : ∀ (tr : Trace) (s : OnceAnyState),
      s.handlerCalls = s.settled.toList →
      (tr.foldl (onceAnyStep h names) s).handlerCalls
        = (tr.foldl (onceAnyStep h names) s).settled.toList by
    exact hgen trace (onceAnyInit names) rfl
  intro tr
  induction tr with
  | nil => intro s hs; exact hs
  | cons ev t ih =>
    intro s hs
    exact ih _ (onceAnyStep_calls h names s ev hs)

theorem capturedSpec_append (elems : List AfterElem) (ts : Trace)
    (ev : Emission) :
    capturedSpec elems (ts ++ [ev]) = stepCaptured elems (capturedSpec elems ts) ev := by
  induction elems with
  | nil => rfl
  | cons e es ih =>
    simp only [capturedSpec, List.map_cons, stepCaptured, List.zipWith_cons_cons]
    have htail := ih
    simp only [capturedSpec, stepCaptured] at htail
    rw [← htail]
    have hhead : (elemFind e (ts ++ [ev])).map (elemValue e)
        = match (elemFind e ts).map (elemValue e) with
          | some v => some v
          | none => if elemMatches e ev.1 then some (elemValue e ev) else none := by
      cases hf : elemFind e ts with
      | some em =>
        have h2 : elemFind e (ts ++ [ev]) = some em := by
          rw [elemFind, List.find?_append, ← elemFind, hf]
          rfl
        rw [h2]
        rfl
      | none =>
        have h2 : elemFind e (ts ++ [ev])
            = List.find? (fun ev' => elemMatches e ev'.1) [ev] := by
          rw [elemFind, List.find?_append, ← elemFind, hf]
          rfl
        rw [h2]
        by_cases hmch : elemMatches e ev.1 = true
        · have h3 : List.find? (fun ev' => elemMatches e ev'.1) [ev] = some ev := by
            simp [List.find?, hmch]
          rw [h3]
          simp [hmch]
        · simp only [Bool.not_eq_true] at hmch
          have h3 : List.find? (fun ev' => elemMatches e ev'.1) [ev] = none := by
            simp [List.find?, hmch]
          rw [h3]
          simp [hmch]
    rw [hhead]

theorem stepCaptured_of_allSome (elems : List AfterElem) (ts : Trace)
    (ev : Emission)
    (hall : (capturedSpec elems ts).all Option.isSome = true) :
    stepCaptured elems (capturedSpec elems ts) ev = capturedSpec elems ts := by
  induction elems with
  | nil => rfl
  | cons e es ih =>
    simp only [capturedSpec, List.map_cons, List.all_cons, Bool.and_eq_true] at hall
    obtain ⟨hhead, htail⟩ := hall
    obtain ⟨v, hv⟩ := Option.isSome_iff_exists.mp hhead
    have ihh := ih htail
    simp only [capturedSpec, stepCaptured, List.map_cons, List.zipWith_cons_cons] at *
    rw [hv, ihh]

theorem capturedSpec_stable (elems : List AfterElem) (ts : Trace)
    (ev : Emission)
    (hall : (capturedSpec elems ts).all Option.isSome = true) :
    capturedSpec elems (ts ++ [ev]) = capturedSpec elems ts := by
  rw [capturedSpec_append]
  exact stepCaptured_of_allSome elems ts ev hall

theorem capturedSpec_nil (elems : List AfterElem) :
    capturedSpec elems [] = elems.map (fun _ => none) := by
  simp [capturedSpec, elemFind]

theorem trySettle_some (h : List JSVal → JSVal) (cap : List (Option JSVal))
    (v : List JSVal) (hc : List (List JSVal)) :
    trySettle h ⟨cap, some v, hc⟩ = ⟨cap, some v, hc⟩ := rfl

theorem trySettle_none (h : List JSVal → JSVal) (cap : List (Option JSVal))
    (hc : List (List JSVal)) :
    trySettle h ⟨cap, none, hc⟩
      = if cap.all Option.isSome then
          ⟨cap, some (cap.map (fun o => o.getD JSVal.undef)),
            hc ++ [cap.map (fun o => o.getD JSVal.undef)]⟩
        else ⟨cap, none, hc⟩ := rfl

theorem settledSpec_of_all (elems : List AfterElem) (ts : Trace)
    (hall : (capturedSpec elems ts).all Option.isSome = true) :
    settledSpec elems ts
      = some ((capturedSpec elems ts).map (fun o => o.getD JSVal.undef)) := by
  rw [settledSpec, if_pos hall]

theorem settledSpec_of_pending (elems : List AfterElem) (ts : Trace)
    (hall : ¬ (capturedSpec elems ts).all Option.isSome = true) :
    settledSpec elems ts = none := by
  rw [settledSpec, if_neg hall]

theorem afterInit_eq (h : List JSVal → JSVal) (elems : List AfterElem) :
    afterInit h elems = afterSpecState elems [] := by
  show trySettle h ⟨elems.map (fun _ => none), none, []⟩ = afterSpecState elems []
  rw [trySettle_none, ← capturedSpec_nil]
  by_cases hall : (capturedSpec elems []).all Option.isSome = true
  · rw [if_pos hall, afterSpecState, settledSpec_of_all elems [] hall]
    rfl
  · rw [if_neg hall, afterSpecState, settledSpec_of_pending elems [] hall]
    rfl

theorem afterStep_hom (h : List JSVal → JSVal) (elems : List AfterElem)
    (ts : Trace) (ev : Emission) :
    afterStep h elems (afterSpecState elems ts) ev = afterSpecState elems (ts ++ [ev]) := by
  show trySettle h ⟨stepCaptured elems (capturedSpec elems ts) ev,
        settledSpec elems ts, (settledSpec elems ts).toList⟩
      = afterSpecState elems (ts ++ [ev])
  rw [← capturedSpec_append]
  by_cases hall : (capturedSpec elems ts).all Option.isSome = true
  · have hstable := capturedSpec_stable elems ts ev hall
    have hall2 : (capturedSpec elems (ts ++ [ev])).all Option.isSome = true := by
      rw [hstable]; exact hall
    rw [settledSpec_of_all elems ts hall, trySettle_some, afterSpecState,
      settledSpec_of_all elems (ts ++ [ev]) hall2, hstable]
  · rw [settledSpec_of_pending elems ts hall, trySettle_none, afterSpecState]
    by_cases hall2 : (capturedSpec elems (ts ++ [ev])).all Option.isSome = true
    · rw [if_pos hall2, settledSpec_of_all elems (ts ++ [ev]) hall2]
      rfl
    · rw [if_neg hall2, settledSpec_of_pending elems (ts ++ [ev]) hall2]

theorem runAfter_spec (h : List JSVal → JSVal) (elems : List AfterElem)
    (trace : Trace) :
    runAfter h elems trace = afterSpecState elems trace := by
  suffices hgen : ∀ (tr ts : Trace),
      tr.foldl (afterStep h elems) (afterSpecState elems ts)
        = afterSpecState elems (ts ++ tr) by
    unfold runAfter
    rw [afterInit_eq]
    simpa using hgen trace []
  intro tr
  induction tr with
  | nil => intro ts; simp
  | cons ev t ih =>
    intro ts
    rw [List.foldl_cons, afterStep_hom]
    rw [ih (ts ++ [ev])]
    simp

theorem capturedSpec_all_fired (elems : List AfterElem) (trace : Trace) :
    (capturedSpec elems trace).all Option.isSome = elems.all (firedIn trace) := by
  induction elems with
  | nil => rfl
  | cons e es ih =>
    simp only [capturedSpec, List.map_cons, List.all_cons] at *
    rw [ih]
    congr 1
    rw [Option.isSome_map', elemFind, find?_isSome_any]
    rfl

theorem find?_replace_self (k v : String) :
    ∀ (l : List (String × String)), l.any (fun p => p.1 == k) = true →
      (l.map (fun p => if p.1 == k then (k, v) else p)).find? (fun p => p.1 == k)
        = some (k, v) := by
  intro l
  induction l with
  | nil => intro hany; cases hany
  | cons a t ih =>
    intro hany
    rw [List.map_cons]
    by_cases ha : (a.1 == k) = true
    · rw [if_pos ha]
      exact List.find?_cons_of_pos _ (by simp)
    · simp only [Bool.not_eq_true] at ha
      rw [List.any_cons, ha, Bool.false_or] at hany
      rw [if_neg (by simp [ha]), List.find?_cons_of_neg _ (by simp [ha])]
      exact ih hany

theorem find?_replace_other (k v k' : String) (hne : k' ≠ k) :
    ∀ (l : List (String × String)),
      ((l.map (fun p => if p.1 == k then (k, v) else p)).find?
          (fun p => p.1 == k')).map (fun p => p.2)
        = (l.find? (fun p => p.1 == k')).map (fun p => p.2) := by
  have hkk' : (k == k') = false := by
    simpa using fun h => hne h.symm
  intro l
  induction l with
  | nil => rfl
  | cons a t ih =>
    rw [List.map_cons]
    by_cases ha : (a.1 == k) = true
    · have ha' : a.1 = k := by simpa using ha
      have h2 : (a.1 == k') = false := by
        rw [ha']; exact hkk'
      rw [if_pos ha, List.find?_cons_of_neg _ (by simp [hkk']),
        List.find?_cons_of_neg _ (by simp [h2])]
      exact ih
    · simp only [Bool.not_eq_true] at ha
      rw [if_neg (by simp [ha])]
      by_cases hk' : (a.1 == k') = true
      · have hfa : List.find? (fun p => p.1 == k')
            (a :: t.map (fun p => if p.1 == k then (k, v) else p)) = some a :=
          List.find?_cons_of_pos _ hk'
        have hfb : List.find? (fun p => p.1 == k') (a :: t) = some a :=
          List.find?_cons_of_pos _ hk'
        rw [hfa, hfb]
      · have hfa : List.find? (fun p => p.1 == k')
            (a :: t.map (fun p => if p.1 == k then (k, v) else p))
            = List.find? (fun p => p.1 == k')
                (t.map (fun p => if p.1 == k then (k, v) else p)) :=
          List.find?_cons_of_neg _ hk'
        have hfb : List.find? (fun p => p.1 == k') (a :: t)
            = List.find? (fun p => p.1 == k') t :=
          List.find?_cons_of_neg _ hk'
        rw [hfa, hfb]
        exact ih

theorem find?_none_of_any_false (k : String) (l : List (String × String))
    (hany : l.any (fun p => p.1 == k) = false) :
    l.find? (fun p => p.1 == k) = none := by
  induction l with
  | nil => rfl
  | cons a t ih =>
    rw [List.any_cons, Bool.or_eq_false_iff] at hany
    simp [List.find?, hany.1, ih hany.2]

theorem PEnv.get_set_self (e : PEnv) (k v : String) :
    (e.set k v).get k = some v := by
  unfold PEnv.set
  by_cases hany : e.vars.any (fun p => p.1 == k) = true
  · rw [if_pos hany]
    unfold PEnv.get
    rw [find?_replace_self k v e.vars hany]
    rfl
  · simp only [Bool.not_eq_true] at hany
    rw [if_neg (by simp [hany])]
    unfold PEnv.get
    rw [List.find?_append, find?_none_of_any_false k e.vars hany]
    simp [List.find?]

theorem PEnv.get_set_other (e : PEnv) (k v k' : String) (hne : k' ≠ k) :
    (e.set k v).get k' = e.get k' := by
  unfold PEnv.set
  by_cases hany : e.vars.any (fun p => p.1 == k) = true
  · rw [if_pos hany]
    unfold PEnv.get
    exact find?_replace_other k v k' hne e.vars
  · simp only [Bool.not_eq_true] at hany
    rw [if_neg (by simp [hany])]
    unfold PEnv.get
    rw [List.find?_append]
    have h2 : List.find? (fun p => p.1 == k') [(k, v)] = none := by
      have : (k == k') = false := by simpa using fun h => hne h.symm
      simp [List.find?, this]
    rw [h2, Option.or_none]

theorem construct_penv_eq (inp : AppInput) (penv : PEnv)
    (hp : truthy inp.pkg = true) (ha : truthy inp.api = true) :
    (construct inp penv).2.1 = defaultNodeEnv penv := by
  unfold construct
  rw [hp, ha]
  cases hv : validateConfig inp.config with
  | error e => simp [hv]
  | ok u => simp [hv]

theorem construct_ok_shape (inp : AppInput) (penv : PEnv) (ctx : TrailsCtx)
    (penv' : PEnv) (packs : List Nat)
    (h : construct inp penv = (.ok ctx, penv', packs)) :
    ctx.env = penv'.vars ∧ ctx.envFrozen = true ∧ penv' = defaultNodeEnv penv := by
  unfold construct at h
  by_cases hp : truthy inp.pkg = false
  · rw [if_pos hp] at h
    simp at h
  · rw [if_neg hp] at h
    by_cases ha : truthy inp.api = false
    · rw [if_pos ha] at h
      simp at h
    · rw [if_neg ha] at h
      cases hv : validateConfig inp.config with
      | error e =>
        rw [hv] at h
        simp at h
      | ok u =>
        rw [hv] at h
        simp only [Prod.mk.injEq, Except.ok.injEq] at h
        obtain ⟨hctx, hpenv, hpacks⟩ := h
        refine ⟨?_, ?_, ?_⟩
        · rw [← hctx, ← hpenv]
        · rw [← hctx]
        · rw [← hpenv]

theorem applyProcessMuts_app (w : World) :
    ∀ (ms : List (String × String)), (applyProcessMuts w ms).app = w.app := by
  suffices hgen : ∀ (ms : List (String × String)) (w : World),
      (applyProcessMuts w ms).app = w.app by
    intro ms; exact hgen ms w
  intro ms
  induction ms with
  | nil => intro w; rfl
  | cons m t ih =>
    intro w
    show (applyProcessMuts (setProcessVar w m.1 m.2) t).app = w.app
    rw [ih]
    rfl

/-! ## Claims -/

/-- C1: the claim states that once an `onceAny` call's signal settles, every
one-shot listener the call registered — including listeners for event names
that never fired — has been removed.  The code violates this: after
`onceAny(['a','b'])` settles through an emission of `b`, the listener for
`a` is still attached, because the shared `resolveCallback` variable holds
only the last-registered resolve function, so the cleanup loop
`events.forEach(eventName => this.removeListener(eventName, resolveCallback))`
removes at most that one listener.  This theorem evaluates the model at the
failing input: the signal has settled, yet the listener for `a` (index `0`)
remains attached. -/
theorem onceAny_listener_leak :
    (runOnceAny noopHandler ["a", "b"] [("b", [JSVal.num 1])]).settled
        = some [JSVal.num 1]
    ∧ (runOnceAny noopHandler ["a", "b"] [("b", [JSVal.num 1])]).listeners
        = [("a", 0)] :=
  ⟨rfl, rfl⟩

/-- C2 (counterexample): the claim states that the signal settles with the
full argument list of the winning event.  Emitting `a` with the two
arguments `1, 2` settles the `onceAny(['a'])` signal with `[1]` — the
promise `resolve` keeps only the first argument — not with `[1, 2]`. -/
theorem onceAny_drops_extra_arguments :
    (runOnceAny noopHandler ["a"] [("a", [JSVal.num 1, JSVal.num 2])]).settled
        = some [JSVal.num 1]
    ∧ (runOnceAny noopHandler ["a"] [("a", [JSVal.num 1, JSVal.num 2])]).settled
        ≠ some [JSVal.num 1, JSVal.num 2] := by
  refine ⟨rfl, ?_⟩
  intro hcontra
  rw [show (runOnceAny noopHandler ["a"]
      [("a", [JSVal.num 1, JSVal.num 2])]).settled = some [JSVal.num 1] from rfl]
    at hcontra
  simp at hcontra

/-- C2 (amended): for every `onceAny(names, handler)` call and every trace,
the signal settles exactly when some named event fires, and it settles with
the one-element list holding the **first argument** of the first such
emission (`undefined` when the event was emitted without arguments);
arguments beyond the first are dropped.  The handler's return value is
ignored: the wrapper passes the original event-derived arguments on
regardless of the handler. -/
theorem onceAny_settles_with_first_event (h : List JSVal → JSVal)
    (names : List String) (trace : Trace) :
    (runOnceAny h names trace).settled
        = (firstMatch names trace).map (fun ev => [ev.2.headD JSVal.undef])
    ∧ (∀ (g : List JSVal → JSVal) (args : List JSVal),
        (handlerWrapper g args).2 = args) :=
  ⟨runOnceAny_settled h names trace, fun _ _ => rfl⟩

/-- C3: for every `after(names)` call over plain event names, once every
name has fired the signal settles with the list of each event's captured
(first) argument **in input-list order**, each value being determined by
that event's own first emission — hence independent of emission order.  In
particular `after(['a','b'])` settles with `[argA, argB]` whether `a` or `b`
fires first. -/
theorem after_settles_in_input_order (h : List JSVal → JSVal)
    (names : List String) (trace : Trace)
    (hf : ∀ nm ∈ names, trace.any (fun ev => nm == ev.1) = true) :
    (runAfter h (names.map AfterElem.plain) trace).settled
        = some (names.map (firstPlainValue trace))
    ∧ (runAfter noopHandler [AfterElem.plain "a", AfterElem.plain "b"]
        [("a", [JSVal.num 9]), ("b", [JSVal.num 10])]).settled
      = some [JSVal.num 9, JSVal.num 10]
    ∧ (runAfter noopHandler [AfterElem.plain "a", AfterElem.plain "b"]
        [("b", [JSVal.num 10]), ("a", [JSVal.num 9])]).settled
      = some [JSVal.num 9, JSVal.num 10] := by
  refine ⟨?_, rfl, rfl⟩
  rw [runAfter_spec]
  have hall : (capturedSpec (names.map AfterElem.plain) trace).all Option.isSome
      = true := by
    rw [capturedSpec_all_fired, List.all_eq_true]
    intro e he
    obtain ⟨nm, hnm, rfl⟩ := List.mem_map.mp he
    exact hf nm hnm
  show settledSpec (names.map AfterElem.plain) trace = _
  rw [settledSpec_of_all _ _ hall, capturedSpec, List.map_map, List.map_map]
  rfl

/-- C3 witness: applying the theorem at `after(['a','b'])` with `b` emitted
first. -/
theorem after_settles_in_input_order_check :
    (∀ nm ∈ ["a", "b"],
      (([("b", [JSVal.num 2]), ("a", [JSVal.num 1])] : Trace).any
        (fun ev => nm == ev.1)) = true)
    ∧ (runAfter noopHandler (["a", "b"].map AfterElem.plain)
        [("b", [JSVal.num 2]), ("a", [JSVal.num 1])]).settled
      = some [JSVal.num 1, JSVal.num 2] := by
  refine ⟨by decide, ?_⟩
  have hgen := (after_settles_in_input_order noopHandler ["a", "b"]
    [("b", [JSVal.num 2]), ("a", [JSVal.num 1])] (by decide)).1
  exact hgen.trans rfl

/-- C4: an `after` signal settles exactly when every top-level element has
fired — a plain name by its own emission, a nested "any of" group by an
emission of any member.  In particular `after([['a','b'],'c'])` settles
after `a, c` and after `b, c`, and does not settle when only `c` is
emitted. -/
theorem after_settles_iff_all_fired (h : List JSVal → JSVal)
    (elems : List AfterElem) (trace : Trace) :
    ((runAfter h elems trace).settled.isSome = elems.all (firedIn trace))
    ∧ (runAfter noopHandler [AfterElem.group ["a", "b"], AfterElem.plain "c"]
        [("a", []), ("c", [])]).settled.isSome = true
    ∧ (runAfter noopHandler [AfterElem.group ["a", "b"], AfterElem.plain "c"]
        [("b", []), ("c", [])]).settled.isSome = true
    ∧ (runAfter noopHandler [AfterElem.group ["a", "b"], AfterElem.plain "c"]
        [("c", [JSVal.num 3]), ("c", [])]).settled = none := by
  refine ⟨?_, rfl, rfl, rfl⟩
  rw [runAfter_spec]
  show (settledSpec elems trace).isSome = _
  by_cases hall : (capturedSpec elems trace).all Option.isSome = true
  · rw [settledSpec_of_all _ _ hall, ← capturedSpec_all_fired]
    simp [hall]
  · rw [settledSpec_of_pending _ _ hall, ← capturedSpec_all_fired]
    simp only [Bool.not_eq_true] at hall
    simp [hall]

/-- C5: for both combinators, whenever the returned signal settles the
optional handler has been invoked exactly once, with exactly the payload the
signal settles with; while the signal is pending the handler has not been
invoked at all.  (`Option.toList` of the settled value is `[payload]` after
settlement and `[]` before.) -/
theorem handler_called_once_with_payload (h : List JSVal → JSVal)
    (names : List String) (elems : List AfterElem) (trace : Trace) :
    (runOnceAny h names trace).handlerCalls
        = (runOnceAny h names trace).settled.toList
    ∧ (runAfter h elems trace).handlerCalls
        = (runAfter h elems trace).settled.toList := by
  refine ⟨runOnceAny_calls h names trace, ?_⟩
  rw [runAfter_spec]
  rfl

/-- C6: the constructor raises `PackageNotDefinedError` when `pkg` is absent
(reading the missing field yields the falsy `undefined`); with `pkg` present
(truthy) but `api` absent it raises `ApiNotDefinedError`; with both present
but no logging collaborator in the configuration,
`lib.Trails.validateConfig` raises `LoggerNotDefinedError`.  In every case
the error is the synchronous result, no context is produced, and the
invoked-pack list is empty — no pack constructor has run. -/
theorem constructor_error_taxonomy (inp : AppInput) (penv : PEnv) :
    (truthy inp.pkg = false →
      construct inp penv = (.error .PackageNotDefinedError, penv, []))
    ∧ (truthy inp.pkg = true → truthy inp.api = false →
      construct inp penv = (.error .ApiNotDefinedError, penv, []))
    ∧ (truthy inp.pkg = true → truthy inp.api = true → inp.config.log = none →
      construct inp penv = (.error .LoggerNotDefinedError, defaultNodeEnv penv, [])) := by
  refine ⟨?_, ?_, ?_⟩
  · intro hp
    unfold construct
    rw [if_pos hp]
  · intro hp ha
    unfold construct
    rw [if_neg (by simp [hp]), if_pos ha]
  · intro hp ha hlog
    have hv : validateConfig inp.config = .error .LoggerNotDefinedError := by
      unfold validateConfig
      rw [hlog]
    unfold construct
    rw [if_neg (by simp [hp]), if_neg (by simp [ha]), hv]

/-- C6 witness: the three error cases at concrete inputs. -/
theorem constructor_error_taxonomy_check :
    construct ⟨JSVal.undef, JSVal.undef, ⟨none, []⟩⟩ ⟨[]⟩
        = (.error .PackageNotDefinedError, ⟨[]⟩, [])
    ∧ construct ⟨JSVal.str "pkg", JSVal.undef, ⟨none, []⟩⟩ ⟨[]⟩
        = (.error .ApiNotDefinedError, ⟨[]⟩, [])
    ∧ construct ⟨JSVal.str "pkg", JSVal.str "api", ⟨none, []⟩⟩ ⟨[]⟩
        = (.error .LoggerNotDefinedError, defaultNodeEnv ⟨[]⟩, []) :=
  ⟨(constructor_error_taxonomy _ _).1 rfl,
   (constructor_error_taxonomy _ _).2.1 rfl rfl,
   (constructor_error_taxonomy _ _).2.2 rfl rfl rfl⟩

/-- C7 (counterexample): the claim quantifies over every construction call
and says an already-set `NODE_ENV` is left unchanged.  Both parts fail on
the code at explicit inputs: a call without `pkg` throws at the `pkg` guard,
before the `NODE_ENV` line, so with `NODE_ENV` unset nothing is set
process-wide; and a call with `NODE_ENV` set to the empty string — set, but
falsy — has it overwritten with `"development"`, because the guard
`if (!process.env.NODE_ENV)` tests truthiness rather than presence. -/
theorem constructor_node_env_claim_fails :
    ((construct ⟨JSVal.undef, JSVal.undef,
        ⟨some (JSVal.str "logger"), []⟩⟩ ⟨[]⟩).2.1).get "NODE_ENV" = none
    ∧ ((construct ⟨JSVal.str "pkg", JSVal.str "api",
        ⟨some (JSVal.str "logger"), []⟩⟩
        ⟨[("NODE_ENV", "")]⟩).2.1).get "NODE_ENV" = some "development" :=
  ⟨rfl, rfl⟩

/-- C7 (amended): for every construction call that passes the `pkg`/`api`
guards (a call failing those throws before the `NODE_ENV` line and leaves
the process environment untouched): if `NODE_ENV` is unset — or set to the
empty string, which the code's falsy guard treats the same way —
construction sets it process-wide to `"development"`; if it is set to a
non-empty value, construction leaves the process environment unchanged; and
no key other than `NODE_ENV` is ever mutated. -/
theorem constructor_sets_node_env_default (inp : AppInput) (penv : PEnv)
    (hp : truthy inp.pkg = true) (ha : truthy inp.api = true) :
    ((construct inp penv).2.1 = defaultNodeEnv penv)
    ∧ (penv.get "NODE_ENV" = none →
        (construct inp penv).2.1 = penv.set "NODE_ENV" "development"
        ∧ ((construct inp penv).2.1).get "NODE_ENV" = some "development")
    ∧ (penv.get "NODE_ENV" = some "" →
        (construct inp penv).2.1 = penv.set "NODE_ENV" "development"
        ∧ ((construct inp penv).2.1).get "NODE_ENV" = some "development")
    ∧ (∀ v, penv.get "NODE_ENV" = some v → v ≠ "" →
        (construct inp penv).2.1 = penv)
    ∧ (∀ k, k ≠ "NODE_ENV" → ((construct inp penv).2.1).get k = penv.get k) := by
  have he := construct_penv_eq inp penv hp ha
  refine ⟨he, ?_, ?_, ?_, ?_⟩
  · intro hnone
    have hd : defaultNodeEnv penv = penv.set "NODE_ENV" "development" := by
      unfold defaultNodeEnv
      rw [hnone]
    exact ⟨by rw [he, hd], by rw [he, hd, PEnv.get_set_self]⟩
  · intro hempty
    have hd : defaultNodeEnv penv = penv.set "NODE_ENV" "development" := by
      unfold defaultNodeEnv
      rw [hempty]
      rfl
    exact ⟨by rw [he, hd], by rw [he, hd, PEnv.get_set_self]⟩
  · intro v hsome hvne
    rw [he]
    unfold defaultNodeEnv
    rw [hsome]
    show (if (v == "") = true then penv.set "NODE_ENV" "development" else penv) = penv
    rw [if_neg (by simp [hvne])]
  · intro k hk
    rw [he]
    unfold defaultNodeEnv
    cases hn : penv.get "NODE_ENV" with
    | none => exact PEnv.get_set_other penv "NODE_ENV" "development" k hk
    | some v =>
      show ((if (v == "") = true then penv.set "NODE_ENV" "development"
        else penv)).get k = penv.get k
      by_cases hve : (v == "") = true
      · rw [if_pos hve]
        exact PEnv.get_set_other penv "NODE_ENV" "development" k hk
      · rw [if_neg hve]

/-- C7 witness: constructing with an empty process environment, and with
`NODE_ENV` present but empty, both end with `NODE_ENV` set process-wide to
`"development"`. -/
theorem constructor_sets_node_env_default_check :
    ((construct ⟨JSVal.str "pkg", JSVal.str "api",
        ⟨some (JSVal.str "logger"), []⟩⟩ ⟨[]⟩).2.1).get "NODE_ENV"
      = some "development"
    ∧ ((construct ⟨JSVal.str "pkg", JSVal.str "api",
        ⟨some (JSVal.str "logger"), []⟩⟩
        ⟨[("NODE_ENV", "")]⟩).2.1).get "NODE_ENV"
      = some "development" :=
  ⟨((constructor_sets_node_env_default
      ⟨JSVal.str "pkg", JSVal.str "api", ⟨some (JSVal.str "logger"), []⟩⟩
      ⟨[]⟩ rfl rfl).2.1 rfl).2,
   ((constructor_sets_node_env_default
      ⟨JSVal.str "pkg", JSVal.str "api", ⟨some (JSVal.str "logger"), []⟩⟩
      ⟨[("NODE_ENV", "")]⟩ rfl rfl).2.2.1 rfl).2⟩

/-- C8: a successfully constructed context's `env` attribute is the value
copy of the process environment taken (and frozen) at construction: any list
of later writes to the live process environment leaves the snapshot exactly
as it was, and every strict-mode write against the snapshot object itself
fails with a `TypeError` because the snapshot is frozen. -/
theorem env_snapshot_frozen (inp : AppInput) (penv : PEnv) (ctx : TrailsCtx)
    (penv' : PEnv) (packs : List Nat)
    (h : construct inp penv = (.ok ctx, penv', packs)) :
    ctx.env = penv'.vars
    ∧ (∀ ms : List (String × String),
        (applyProcessMuts ⟨penv', ctx⟩ ms).app.env = penv'.vars)
    ∧ (∀ k v, snapshotWrite ctx k v = .error .typeError) := by
  obtain ⟨henv, hfrozen, _⟩ := construct_ok_shape inp penv ctx penv' packs h
  refine ⟨henv, ?_, ?_⟩
  · intro ms
    rw [applyProcessMuts_app]
    exact henv
  · intro k v
    unfold snapshotWrite
    rw [if_pos hfrozen]

/-- C8 witness: a concrete construction, one process-environment write after
it, and one rejected snapshot write. -/
theorem env_snapshot_frozen_check :
    snapshotWrite
        { env := [("NODE_ENV", "development")], envFrozen := true,
          started := false, stopped := false, bound := false, loadedPacks := [] }
        "FOO" "bar"
      = .error .typeError :=
  (env_snapshot_frozen
    ⟨JSVal.str "pkg", JSVal.str "api", ⟨some (JSVal.str "logger"), []⟩⟩ ⟨[]⟩
    { env := [("NODE_ENV", "development")], envFrozen := true,
      started := false, stopped := false, bound := false, loadedPacks := [] }
    ⟨[("NODE_ENV", "development")]⟩ [] rfl).2.2 "FOO" "bar"

/-- C9: `start()` returns the `after('trails:ready')` signal chained with
the continuation that records startup: if `trails:ready` fires in the trace
the signal settles, the `started` flag is `true`, and the resolution value
is the application context itself (with that flag set); while the barrier
has not fired, the signal is pending and `started` is untouched. -/
theorem start_resolves_on_ready (app : TrailsCtx) (trace : Trace) :
    startRun app trace =
      if trace.any (fun ev => "trails:ready" == ev.1) then
        ({ app with started := true }, some { app with started := true })
      else (app, none) := by
  unfold startRun
  rw [runAfter_spec]
  by_cases hfire : trace.any (fun ev => ("trails:ready" == ev.1)) = true
  · have hall : (capturedSpec [AfterElem.plain "trails:ready"] trace).all
        Option.isSome = true := by
      rw [capturedSpec_all_fired]
      simpa [firedIn, elemMatches] using hfire
    rw [show (afterSpecState [AfterElem.plain "trails:ready"] trace).settled
        = settledSpec [AfterElem.plain "trails:ready"] trace from rfl]
    rw [settledSpec_of_all _ _ hall, if_pos hfire]
  · have hall : ¬ (capturedSpec [AfterElem.plain "trails:ready"] trace).all
        Option.isSome = true := by
      rw [capturedSpec_all_fired]
      simpa [firedIn, elemMatches] using hfire
    rw [show (afterSpecState [AfterElem.plain "trails:ready"] trace).settled
        = settledSpec [AfterElem.plain "trails:ready"] trace from rfl]
    rw [settledSpec_of_pending _ _ hall, if_neg hfire]

/-- C10: on the empty input list the two combinators diverge:
`after([])` settles immediately with the empty list (`Promise.all([])`),
while `onceAny([])` never settles (`Promise.race([])` stays pending),
whatever is emitted afterwards. -/
theorem empty_list_barrier_semantics (h : List JSVal → JSVal) (trace : Trace) :
    (runAfter h [] trace).settled = some []
    ∧ (runOnceAny h [] trace).settled = none := by
  constructor
  · rw [runAfter_spec]
    show settledSpec [] trace = some []
    rw [settledSpec_of_all [] trace rfl]
    rfl
  · rw [runOnceAny_settled]
    have hnone : firstMatch [] trace = none := by
      rw [firstMatch, List.find?_eq_none]
      intro x _
      simp
    rw [hnone]
    rfl

end Trails
